import Mathlib

/-!
Verification development for the Monte Carlo simulation / statistical
summarization engine of `src/App.js` (the `Dashboard` component).

JS numbers are modelled as exact rationals (`ℚ`).  The engine's arithmetic —
statistics, histogram binning, trajectory projection, risk classification —
is rational arithmetic on its inputs, so this embedding is exact there.  The
only transcendental step is the Box–Muller transform (lines 44–46), which is
modelled by (a) abstracting the per-iteration normal variate `z` as an oracle
stream `ℕ → ℚ` for the claims that hold for every finite `z`, and (b) an
explicit model of the argument fed to `Math.log` and of the finiteness of the
resulting `z` for the claim about the zero-draw guard.
-/

namespace NvidiaDash

/-- A sample pair pushed on line 49: `{ npv, ms }` (value and retention). -/
structure Sample where
  npv : ℚ
  ms : ℚ
  deriving DecidableEq

/-- One row of the scenario-parameter table on lines 35–40:
`{ mean, std, ms }`. -/
structure ScenarioParams where
  mean : ℚ
  std : ℚ
  ms : ℚ
  deriving DecidableEq

/-- Error kinds named by the specification.  `UnknownScenario` models the
failure of the `{...}[scenario]` lookup on an unrecognized key (in JS the
lookup yields `undefined` and the subsequent property access throws);
`EmptyPopulation` models the throw of `vals.reduce` without an initial value
on an empty array.  `DegenerateRange` is named by the spec for the
`max == min` histogram case; no code path in `src/App.js` produces it. -/
inductive Err where
  | UnknownScenario
  | EmptyPopulation
  | DegenerateRange
  deriving DecidableEq

/-- The record returned by the `stats` memo, lines 63–83.  The code stores
`std = Math.sqrt(variance)`; since square roots of rationals are in general
irrational (and `Real.sqrt` is noncomputable), we store the variance
`stdSq = std^2` instead.  `Math.sqrt` is injective on nonnegatives, so two
stats records agree on `std` exactly when they agree on `stdSq`. -/
structure Stats where
  mean : ℚ
  median : ℚ
  p10 : ℚ
  p90 : ℚ
  min : ℚ
  max : ℚ
  stdSq : ℚ
  positive : ℚ
  above80 : ℚ
  avgMs : ℚ
  msAbove75 : ℚ
  deriving DecidableEq

/-- A histogram entry `{ x, y }` produced on lines 96–99. -/
structure Bin where
  x : ℚ
  y : ℚ
  deriving DecidableEq

/-- The risk tier string on line 125: `"low" | "med" | "high"`. -/
inductive Risk where
  | low
  | med
  | high
  deriving DecidableEq

/-- A scatter entry `{ x, y, risk }` produced on lines 122–126. -/
structure ScatterPoint where
  x : ℚ
  y : ℚ
  risk : Risk
  deriving DecidableEq

/-- A trajectory entry `{ year, expected, p90, p10 }` produced on
lines 112–117. -/
structure TrajPoint where
  year : String
  expected : ℚ
  p90 : ℚ
  p10 : ℚ
  deriving DecidableEq

/-- The scenario-parameter lookup on lines 35–40:
`{ all: {...}, conservative: {...}, base: {...}, optimistic: {...} }[scenario]`.
An unrecognized key yields `undefined` in JS (`none` here). -/
def params? (k : String) : Option ScenarioParams :=
  if k = "all" then some ⟨89.4, 14.3, 0.749⟩
  else if k = "conservative" then some ⟨74.2, 8.5, 0.7⟩
  else if k = "base" then some ⟨89.4, 11.2, 0.749⟩
  else if k = "optimistic" then some ⟨108.7, 9.8, 0.82⟩
  else none

/-- Lines 47–48: given the scenario parameters and the Box–Muller variate `z`
of this iteration,
`npv = Math.max(50, mean + z * std)` and
`ms = Math.max(0.5, Math.min(0.95, ms + z * 0.08))`. -/
def mkSample (p : ScenarioParams) (z : ℚ) : Sample :=
  ⟨max 50 (p.mean + z * p.std), max 0.5 (min 0.95 (p.ms + z * 0.08))⟩

/-- The loop on lines 42–51: 10,000 iterations, each pushing one sample.
`z i` abstracts the finite value the Box–Muller expression on lines 44–46
takes at iteration `i` (see `logArg`/`zFinite` for the transform itself). -/
def popOf (p : ScenarioParams) (z : ℕ → ℚ) : List Sample :=
  (List.range 10000).map (fun i => mkSample p (z i))

/-- The `simulations` memo, lines 34–52: look up the scenario parameters and
generate the population.  On an unrecognized key the lookup yields
`undefined` and the first `params.mean` access throws before any sample is
produced; this failure is modelled as the `UnknownScenario` error. -/
def generatePopulation (k : String) (z : ℕ → ℚ) : Except Err (List Sample) :=
  match params? k with
  | some p => .ok (popOf p z)
  | none => .error .UnknownScenario

/-- Line 44 and 46: iteration `i` of the loop draws `u1 := u (2*i)` and
`u2 := u (2*i+1)` from the random stream `u` and passes `u1` directly to
`Math.log`.  There is no guard and no redraw on a zero draw: the argument
`Math.log` receives at iteration `i` is exactly the raw draw `u (2*i)`,
whatever its value.  (`Math.random()` ranges over `[0,1)`, so `0` is a legal
draw.) -/
def logArg (u : ℕ → ℚ) (i : ℕ) : ℚ := u (2 * i)

/-- Finiteness of the Box–Muller `z` on line 46 as IEEE arithmetic evaluates
it for a draw `u1 ∈ [0,1)`: when `u1 = 0`, `Math.log(0) = -Infinity`, so
`Math.sqrt(-2 * Math.log(u1)) = Infinity` and
`z = Infinity * Math.cos(2*pi*u2)` is `+Infinity`, `-Infinity` or `NaN` —
non-finite in every case; for `0 < u1 < 1` every intermediate is finite. -/
def zFinite (u1 : ℚ) : Bool := decide (0 < u1)

/-- The comparator on line 56: `(a, b) => a.npv - b.npv` orders samples by
ascending `npv`. -/
def sampleLe (a b : Sample) : Prop := a.npv ≤ b.npv

instance : DecidableRel sampleLe :=
  fun a b => inferInstanceAs (Decidable (a.npv ≤ b.npv))

instance : IsTotal Sample sampleLe := ⟨fun a b => le_total a.npv b.npv⟩

instance : IsTrans Sample sampleLe := ⟨fun _ _ _ h1 h2 => le_trans h1 h2⟩

/-- Line 56: `[...simulations].sort((a, b) => a.npv - b.npv)` — a stable
ascending sort of the samples by `npv` (applied to the fresh copy, see
`statsMemo`).  Modelled by insertion sort, which like the JS engine sort is
stable and ascending with respect to the comparator. -/
def jsSort (l : List Sample) : List Sample := List.insertionSort sampleLe l

/-- Line 57: `sorted.map(s => s.npv)`. -/
def valsOf (pop : List Sample) : List ℚ := (jsSort pop).map Sample.npv

/-- `Array.prototype.reduce((a, b) => a + b)` without an initial value
(line 58): the head seeds the fold.  On an empty array JS throws; that path
is unreachable here because `computeStatistics` fails first (the `0` in the
nil branch is never observed). -/
def jsSum (l : List ℚ) : ℚ :=
  match l with
  | [] => 0
  | a :: r => r.foldl (· + ·) a

/-- Line 58: `vals.reduce((a, b) => a + b) / vals.length`. -/
def meanOf (vals : List ℚ) : ℚ := jsSum vals / vals.length

/-- Lines 59–61 without the final square root:
`vals.reduce((sum, v) => sum + Math.pow(v - mean, 2), 0) / vals.length`
(the population variance; see `Stats.stdSq`). -/
def stdSqOf (vals : List ℚ) : ℚ :=
  vals.foldl (fun acc v => acc + (v - meanOf vals) ^ 2) 0 / vals.length

/-- Lines 65–67: `vals[Math.floor(vals.length * f)]` — nearest-rank
percentile with floor truncation.  The index is always in range for the
fractions used (0.1, 0.5, 0.9) on a nonempty list, so the `getD` default is
never observed. -/
def pctAt (vals : List ℚ) (f : ℚ) : ℚ :=
  vals.getD (⌊(vals.length : ℚ) * f⌋).toNat 0

/-- Line 68: `Math.min(...vals)`.  `Math.min()` of no arguments is
`Infinity`; that case is unreachable here (nonempty list), the `getD`
default is never observed. -/
def jsMinList (l : List ℚ) : ℚ := (l.min?).getD 0

/-- Line 69: `Math.max(...vals)`. -/
def jsMaxList (l : List ℚ) : ℚ := (l.max?).getD 0

/-- The body of the `stats` memo, lines 55–83, on a nonempty population. -/
def statsOf (pop : List Sample) : Stats :=
  let vals := valsOf pop
  { mean := meanOf vals
    median := pctAt vals 0.5
    p10 := pctAt vals 0.1
    p90 := pctAt vals 0.9
    min := jsMinList vals
    max := jsMaxList vals
    stdSq := stdSqOf vals
    positive := ((pop.filter (fun s => decide (0 < s.npv))).length : ℚ) / pop.length * 100
    above80 := ((pop.filter (fun s => decide (80 < s.npv))).length : ℚ) / pop.length * 100
    avgMs := pop.foldl (fun acc s => acc + s.ms) 0 / pop.length * 100
    msAbove75 := ((pop.filter (fun s => decide (0.75 < s.ms))).length : ℚ) / pop.length * 100 }

/-- The `stats` memo, lines 55–84.  On an empty population line 58's
`reduce` without an initial value throws; that failure is modelled as the
`EmptyPopulation` error. -/
def computeStatistics (pop : List Sample) : Except Err Stats :=
  match pop with
  | [] => .error .EmptyPopulation
  | _ :: _ => .ok (statsOf pop)

/-- Lines 55–84 with the state of the `simulations` array threaded
explicitly.  JS `Array.prototype.sort` mutates its receiver; line 56 applies
it to the fresh copy `[...simulations]`, not to `simulations` itself, so the
`simulations` array observed after the memo runs still holds the original
sequence in generation order.  The second component is the contents of the
`simulations` array after the memo body has run. -/
def statsMemo (simulations : List Sample) : Except Err Stats × List Sample :=
  (computeStatistics simulations, simulations)

/-- Line 92's bin index, `Math.min(bins - 1, Math.floor((v - min) / size))`,
as IEEE arithmetic evaluates it, including degenerate divisions: for
`size = 0`, `(v - min) / 0` is `NaN` when `v = min` (and then
`dist[NaN]++` touches no array slot: `none`), `+Infinity` when `v > min`
(capped to bin 39), `-Infinity` when `v < min` (a negative index,
`dist[-Infinity]++` touches no array slot).  For `size ≠ 0`, a negative
result leaves every array slot untouched (`dist[-k]++` writes a stray
property, not an element). -/
def binIndex (mn size v : ℚ) : Option ℕ :=
  if size = 0 then
    if 0 < v - mn then some 39 else none
  else
    if 0 ≤ min (39 : ℤ) ⌊(v - mn) / size⌋ then some (min (39 : ℤ) ⌊(v - mn) / size⌋).toNat
    else none

/-- Line 93: `dist[idx]++`, where `none` means no array slot in `0..39` is
incremented (see `binIndex`). -/
def bump (d : ℕ → ℕ) : Option ℕ → (ℕ → ℕ)
  | some i => Function.update d i (d i + 1)
  | none => d

/-- Lines 90–94: the 40-slot count array (modelled by its contents function,
initially all zero) after the `forEach` increment pass. -/
def binCounts (pop : List Sample) (mn size : ℚ) : ℕ → ℕ :=
  pop.foldl (fun d s => bump d (binIndex mn size s.npv)) (fun _ => 0)

/-- Lines 95–99: `dist.map((count, i) => ({ x: stats.min + (i + 0.5) * size,
y: (count / simulations.length) * 100 }))` over all 40 bins, before the
zero filter. -/
def allBins (pop : List Sample) (st : Stats) : List Bin :=
  let size := (st.max - st.min) / 40
  (List.range 40).map (fun (i : ℕ) =>
    ⟨st.min + ((i : ℚ) + 0.5) * size,
      ((binCounts pop st.min size i : ℚ) / pop.length) * 100⟩)

/-- The `distribution` memo, lines 87–101: bin, normalize, and drop
zero-probability bins (`.filter(d => d.y > 0)`). -/
def buildHistogram (pop : List Sample) (st : Stats) : List Bin :=
  (allBins pop st).filter (fun b => decide (0 < b.y))

/-- `Number(q.toFixed(1))`: rounding to one decimal place (lines 114–116,
123–124).  `toFixed` rounds to the nearest multiple of `1/10` (ties away
from zero on the decimal print of the double; no tie arises in any claim). -/
def round1 (q : ℚ) : ℚ := (round (q * 10) : ℤ) / 10

/-- The growth-factor table of the `trajectory` memo, lines 105–110. -/
def factors? (k : String) : Option (List ℚ) :=
  if k = "all" then some [0.15, 0.28, 0.42, 0.58, 0.75, 0.88]
  else if k = "conservative" then some [0.1, 0.2, 0.32, 0.45, 0.6, 0.72]
  else if k = "base" then some [0.15, 0.28, 0.42, 0.58, 0.75, 0.88]
  else if k = "optimistic" then some [0.2, 0.38, 0.55, 0.72, 0.88, 1.05]
  else none

/-- The factor list of the `base` (and `all`) scenario, line 106/108. -/
def baseFactors : List ℚ := [0.15, 0.28, 0.42, 0.58, 0.75, 0.88]

/-- The year row of line 112. -/
def years : List ℕ := [2026, 2027, 2028, 2029, 2030, 2031]

/-- Lines 112–117: `[2026..2031].map((yr, i) => ({ year: String(yr),
expected: Number((stats.median * factors[i]).toFixed(1)),
p90: Number((stats.p90 * factors[i] * 1.05).toFixed(1)),
p10: Number((stats.p10 * factors[i] * 0.95).toFixed(1)) }))`. -/
def trajOf (f : List ℚ) (st : Stats) : List TrajPoint :=
  years.enum.map (fun p =>
    ⟨toString p.2,
      round1 (st.median * f.getD p.1 0),
      round1 (st.p90 * f.getD p.1 0 * 1.05),
      round1 (st.p10 * f.getD p.1 0 * 0.95)⟩)

/-- The `trajectory` memo, lines 104–118.  On an unrecognized key the factor
lookup yields `undefined` and the first `factors[i]` access throws before
any point is produced; this failure is modelled as the `UnknownScenario`
error. -/
def projectTrajectory (k : String) (st : Stats) : Except Err (List TrajPoint) :=
  match factors? k with
  | some f => .ok (trajOf f st)
  | none => .error .UnknownScenario

/-- Line 125: `s.ms > 0.78 ? "low" : s.ms > 0.7 ? "med" : "high"`. -/
def riskOf (r : ℚ) : Risk :=
  if 0.78 < r then .low else if 0.7 < r then .med else .high

/-- The `scatter` memo, lines 121–127: the first 800 samples in generation
order, each mapped to `{ x: Number((s.ms * 100).toFixed(1)),
y: Number(s.npv.toFixed(1)), risk: ... }`. -/
def classifyScatter (pop : List Sample) : List ScatterPoint :=
  (pop.take 800).map (fun s => ⟨round1 (s.ms * 100), round1 s.npv, riskOf s.ms⟩)

/-- The fixed stats input of the spec's trajectory test: `median = 89.4`,
`p10 = 74.2`, `p90 = 108.7` (the remaining fields are irrelevant to
`projectTrajectory` and set to 0). -/
def st8 : Stats := ⟨0, 89.4, 74.2, 108.7, 0, 0, 0, 0, 0, 0, 0⟩

/-! ### Helper lemmas -/

theorem foldl_add_map {α : Type} (f : α → ℚ) :
    ∀ (l : List α) (a : ℚ), l.foldl (fun acc x => acc + f x) a = a + (l.map f).sum
  | [], a => by simp
  | x :: t, a => by
    simp only [List.foldl_cons, List.map_cons, List.sum_cons,
      foldl_add_map f t (a + f x)]
    ring

theorem jsSum_eq_sum : ∀ l : List ℚ, jsSum l = l.sum
  | [] => rfl
  | a :: r => by
    show r.foldl (· + ·) a = (a :: r).sum
    have h := foldl_add_map (id : ℚ → ℚ) r a
    simpa using h

theorem jsSort_perm (l : List Sample) : (jsSort l).Perm l :=
  List.perm_insertionSort sampleLe l

theorem jsSort_sorted (l : List Sample) : (jsSort l).Pairwise sampleLe :=
  List.sorted_insertionSort sampleLe l

theorem valsOf_sorted (l : List Sample) : (valsOf l).Pairwise (· ≤ ·) := by
  unfold valsOf
  rw [List.pairwise_map]
  exact jsSort_sorted l

theorem valsOf_perm (l : List Sample) : (valsOf l).Perm (l.map Sample.npv) :=
  (jsSort_perm l).map Sample.npv

theorem mem_valsOf {s : Sample} {pop : List Sample} (h : s ∈ pop) :
    s.npv ∈ valsOf pop :=
  (valsOf_perm pop).mem_iff.mpr (List.mem_map_of_mem Sample.npv h)

theorem valsOf_perm_eq {p1 p2 : List Sample} (hp : p1.Perm p2) :
    valsOf p1 = valsOf p2 := by
  refine List.eq_of_perm_of_sorted (r := (· ≤ · : ℚ → ℚ → Prop)) ?_ ?_ ?_
  · exact (valsOf_perm p1).trans ((hp.map Sample.npv).trans (valsOf_perm p2).symm)
  · exact valsOf_sorted p1
  · exact valsOf_sorted p2

theorem jsMinList_le {l : List ℚ} {x : ℚ} (hx : x ∈ l) : jsMinList l ≤ x := by
  obtain ⟨a, ha⟩ := Option.isSome_iff_exists.mp (List.isSome_min?_of_mem hx)
  have h := (List.le_min?_iff (fun a b c => le_min_iff) ha (x := a)).mp le_rfl
  simpa [jsMinList, ha] using h x hx

theorem le_jsMaxList {l : List ℚ} {x : ℚ} (hx : x ∈ l) : x ≤ jsMaxList l := by
  obtain ⟨a, ha⟩ := Option.isSome_iff_exists.mp (List.isSome_max?_of_mem hx)
  have h := (List.max?_le_iff (fun a b c => max_le_iff) ha (x := a)).mp le_rfl
  simpa [jsMaxList, ha] using h x hx

theorem binIndex_lt {mn size v : ℚ} {i : ℕ} (h : binIndex mn size v = some i) :
    i < 40 := by
  unfold binIndex at h
  split at h
  · split at h
    · simp only [Option.some.injEq] at h
      omega
    · exact absurd h (by simp)
  · split at h
    · simp only [Option.some.injEq] at h
      subst h
      rename_i hz
      have : min 39 ⌊(v - mn) / size⌋ ≤ 39 := min_le_left _ _
      omega
    · exact absurd h (by simp)

theorem binIndex_isSome {mn size v : ℚ} (hs : 0 < size) (hv : mn ≤ v) :
    ∃ i, binIndex mn size v = some i := by
  unfold binIndex
  rw [if_neg (ne_of_gt hs)]
  have hnn : (0 : ℤ) ≤ ⌊(v - mn) / size⌋ :=
    Int.floor_nonneg.mpr (div_nonneg (sub_nonneg.mpr hv) hs.le)
  have h0 : (0 : ℤ) ≤ min 39 ⌊(v - mn) / size⌋ := le_min (by norm_num) hnn
  exact ⟨_, if_pos h0⟩

/-- Sum of the first `n` slots of a count function (the histogram's 40-slot
array summed). -/
def sumRange (n : ℕ) (d : ℕ → ℕ) : ℕ := ((List.range n).map d).sum

theorem sumRange_update {d : ℕ → ℕ} {i : ℕ} :
    ∀ {n : ℕ}, i < n →
      sumRange n (Function.update d i (d i + 1)) = sumRange n d + 1 := by
  intro n
  induction n with
  | zero => omega
  | succ m ih =>
    intro h
    unfold sumRange at *
    rw [List.range_succ, List.map_append, List.map_append, List.sum_append,
      List.sum_append]
    by_cases hi : i < m
    · rw [ih hi]
      have hne : m ≠ i := by omega
      simp [Function.update_noteq hne]
      omega
    · have him : i = m := by omega
      subst him
      have hmap : (List.range i).map (Function.update d i (d i + 1)) =
          (List.range i).map d := by
        apply List.map_congr_left
        intro a ha
        exact Function.update_noteq (by simp at ha; omega) _ d
      simp [hmap]
      omega

theorem le_sumRange {d : ℕ → ℕ} {i : ℕ} :
    ∀ {n : ℕ}, i < n → d i ≤ sumRange n d := by
  intro n
  induction n with
  | zero => omega
  | succ m ih =>
    intro h
    unfold sumRange at *
    rw [List.range_succ, List.map_append, List.sum_append]
    by_cases hi : i < m
    · exact le_trans (ih hi) (Nat.le_add_right _ _)
    · have : i = m := by omega
      subst this
      simp

theorem binCounts_sum_aux (mn size : ℚ) :
    ∀ (pop : List Sample) (d : ℕ → ℕ),
      (∀ s ∈ pop, (binIndex mn size s.npv).isSome) →
      sumRange 40 (pop.foldl (fun d s => bump d (binIndex mn size s.npv)) d) =
        sumRange 40 d + pop.length
  | [], d, _ => by simp
  | s :: t, d, h => by
    obtain ⟨i, hi⟩ := Option.isSome_iff_exists.mp (h s (List.mem_cons_self s t))
    have hstep := binCounts_sum_aux mn size t
      (bump d (binIndex mn size s.npv)) (fun x hx => h x (List.mem_cons_of_mem s hx))
    simp only [List.foldl_cons, List.length_cons] at *
    rw [hstep, hi]
    show sumRange 40 (Function.update d i (d i + 1)) + t.length = _
    rw [sumRange_update (binIndex_lt hi)]
    omega

theorem binCounts_sum {pop : List Sample} {mn size : ℚ}
    (h : ∀ s ∈ pop, (binIndex mn size s.npv).isSome) :
    sumRange 40 (binCounts pop mn size) = pop.length := by
  have := binCounts_sum_aux mn size pop (fun _ => 0) h
  unfold binCounts
  simpa [sumRange] using this

theorem binCounts_none_aux (mn size : ℚ) :
    ∀ (pop : List Sample) (d : ℕ → ℕ),
      (∀ s ∈ pop, binIndex mn size s.npv = none) →
      pop.foldl (fun d s => bump d (binIndex mn size s.npv)) d = d
  | [], d, _ => rfl
  | s :: t, d, h => by
    simp only [List.foldl_cons, h s (List.mem_cons_self s t), bump]
    exact binCounts_none_aux mn size t d (fun x hx => h x (List.mem_cons_of_mem s hx))

theorem filter_sum_y_le (p : Bin → Bool) :
    ∀ l : List Bin, (∀ b ∈ l, 0 ≤ b.y) →
      ((l.filter p).map Bin.y).sum ≤ (l.map Bin.y).sum
  | [], _ => le_refl _
  | b :: t, h => by
    have ht := filter_sum_y_le p t (fun x hx => h x (List.mem_cons_of_mem b hx))
    by_cases hb : p b
    · rw [List.filter_cons_of_pos hb]
      simpa using add_le_add_left ht b.y
    · rw [List.filter_cons_of_neg hb]
      simp only [List.map_cons, List.sum_cons]
      exact le_trans ht (le_add_of_nonneg_left (h b (List.mem_cons_self b t)))

theorem popOf_length (p : ScenarioParams) (z : ℕ → ℚ) :
    (popOf p z).length = 10000 := by
  simp [popOf]

theorem mem_popOf_npv {p : ScenarioParams} {z : ℕ → ℚ} {s : Sample}
    (hs : s ∈ popOf p z) : 50 ≤ s.npv := by
  simp only [popOf, List.mem_map] at hs
  obtain ⟨i, _, rfl⟩ := hs
  exact le_max_left _ _

theorem mem_popOf_ms {p : ScenarioParams} {z : ℕ → ℚ} {s : Sample}
    (hs : s ∈ popOf p z) : (0.5 : ℚ) ≤ s.ms ∧ s.ms ≤ 0.95 := by
  simp only [popOf, List.mem_map] at hs
  obtain ⟨i, _, rfl⟩ := hs
  exact ⟨le_max_left _ _, max_le (by norm_num) (min_le_left _ _)⟩

theorem computeStatistics_of_ne_nil {pop : List Sample} (h : pop ≠ []) :
    computeStatistics pop = .ok (statsOf pop) := by
  cases pop with
  | nil => exact absurd rfl h
  | cons a t => rfl

theorem foldl_ms_eq_sum (l : List Sample) :
    l.foldl (fun acc s => acc + s.ms) 0 = (l.map Sample.ms).sum := by
  simpa using foldl_add_map Sample.ms l 0

theorem statsOf_perm_eq {p1 p2 : List Sample} (hp : p1.Perm p2) :
    statsOf p1 = statsOf p2 := by
  have hv : valsOf p1 = valsOf p2 := valsOf_perm_eq hp
  have hl : p1.length = p2.length := hp.length_eq
  have hms : (p1.map Sample.ms).sum = (p2.map Sample.ms).sum :=
    (hp.map Sample.ms).sum_eq
  have hf1 : (p1.filter (fun s => decide (0 < s.npv))).length =
      (p2.filter (fun s => decide (0 < s.npv))).length :=
    (hp.filter _).length_eq
  have hf2 : (p1.filter (fun s => decide (80 < s.npv))).length =
      (p2.filter (fun s => decide (80 < s.npv))).length :=
    (hp.filter _).length_eq
  have hf3 : (p1.filter (fun s => decide (0.75 < s.ms))).length =
      (p2.filter (fun s => decide (0.75 < s.ms))).length :=
    (hp.filter _).length_eq
  simp only [statsOf]
  rw [hv, hl, hf1, hf2, hf3, foldl_ms_eq_sum, foldl_ms_eq_sum, hms]

theorem statsOf_min_le {pop : List Sample} {s : Sample} (hs : s ∈ pop) :
    (statsOf pop).min ≤ s.npv :=
  jsMinList_le (mem_valsOf hs)

theorem le_statsOf_max {pop : List Sample} {s : Sample} (hs : s ∈ pop) :
    s.npv ≤ (statsOf pop).max :=
  le_jsMaxList (mem_valsOf hs)

theorem sum_counts_scaled (d : ℕ → ℕ) (k : ℚ) :
    ∀ n : ℕ,
      ((List.range n).map (fun i => (d i : ℚ) * k)).sum = (sumRange n d : ℚ) * k
  | 0 => by simp [sumRange]
  | n + 1 => by
    rw [List.range_succ, List.map_append, List.sum_append,
      sum_counts_scaled d k n]
    unfold sumRange
    rw [List.range_succ, List.map_append, List.sum_append]
    simp only [List.map_cons, List.map_nil, List.sum_cons, List.sum_nil]
    push_cast
    ring

theorem allBins_map_y (pop : List Sample) (st : Stats) :
    (allBins pop st).map Bin.y = (List.range 40).map
      (fun i => (binCounts pop st.min ((st.max - st.min) / 40) i : ℚ) *
        (100 / pop.length)) := by
  simp only [allBins, List.map_map]
  apply List.map_congr_left
  intro i _
  show ((binCounts pop st.min ((st.max - st.min) / 40) i : ℚ) / pop.length) *
    100 = _
  ring

theorem mem_allBins {pop : List Sample} {st : Stats} {b : Bin}
    (hb : b ∈ allBins pop st) :
    ∃ i, i < 40 ∧
      b.y = (binCounts pop st.min ((st.max - st.min) / 40) i : ℚ) /
        pop.length * 100 := by
  simp only [allBins, List.mem_map, List.mem_range] at hb
  obtain ⟨i, hi, rfl⟩ := hb
  exact ⟨i, hi, rfl⟩

theorem allBins_pairwise_x (pop : List Sample) (st : Stats)
    (hsz : 0 < (st.max - st.min) / 40) :
    (allBins pop st).Pairwise (fun b c => b.x < c.x) := by
  simp only [allBins]
  rw [List.pairwise_map]
  refine (List.pairwise_lt_range 40).imp ?_
  intro i j hij
  show st.min + ((i : ℚ) + 0.5) * _ < st.min + ((j : ℚ) + 0.5) * _
  have hcast : ((i : ℚ) + 0.5) < ((j : ℚ) + 0.5) := by
    have hq : (i : ℚ) < (j : ℚ) := by exact_mod_cast hij
    linarith
  exact add_lt_add_left (mul_lt_mul_of_pos_right hcast hsz) _

/-! ### Claim theorems -/

/-- C6: for statistics computed from a population with `min < max`, the
output histogram's probabilities sum to at most 100, the sum over all 40
bins (including the zero-count ones the output omits) is exactly 100, every
output bin has `0 < probabilityPercent <= 100` (zero-count bins are
omitted), and the output bins appear in ascending bin-index order (their
centers strictly increase). -/
theorem c6_histogram_probabilities (pop : List Sample) (st : Stats)
    (h1 : computeStatistics pop = .ok st) (h2 : st.min < st.max) :
    ((allBins pop st).map Bin.y).sum = 100 ∧
    ((buildHistogram pop st).map Bin.y).sum ≤ 100 ∧
    (∀ b ∈ buildHistogram pop st, 0 < b.y ∧ b.y ≤ 100) ∧
    (buildHistogram pop st).Pairwise (fun b c => b.x < c.x) := by
  have hne : pop ≠ [] := by
    intro h
    rw [h] at h1
    exact absurd h1 (by simp [computeStatistics])
  rw [computeStatistics_of_ne_nil hne] at h1
  simp only [Except.ok.injEq] at h1
  have hN : 0 < pop.length := List.length_pos.mpr hne
  have hNQ : (0 : ℚ) < (pop.length : ℚ) := by exact_mod_cast hN
  have hsz : 0 < (st.max - st.min) / 40 := by
    have hlt : 0 < st.max - st.min := sub_pos.mpr h2
    exact div_pos hlt (by norm_num)
  have hbi : ∀ s ∈ pop,
      (binIndex st.min ((st.max - st.min) / 40) s.npv).isSome := by
    intro s hs
    have hmin : st.min ≤ s.npv := by
      rw [← h1]
      exact statsOf_min_le hs
    obtain ⟨i, hi⟩ := binIndex_isSome hsz hmin
    rw [hi]
    rfl
  have hsum : sumRange 40 (binCounts pop st.min ((st.max - st.min) / 40)) =
      pop.length := binCounts_sum hbi
  have hA : ((allBins pop st).map Bin.y).sum = 100 := by
    rw [allBins_map_y, sum_counts_scaled _ _ 40, hsum]
    field_simp
  refine ⟨hA, ?_, ?_, ?_⟩
  · have hnn : ∀ b ∈ allBins pop st, 0 ≤ b.y := by
      intro b hb
      obtain ⟨i, _, hy⟩ := mem_allBins hb
      rw [hy]
      exact mul_nonneg (div_nonneg (Nat.cast_nonneg _) (Nat.cast_nonneg _))
        (by norm_num)
    have hfil : buildHistogram pop st =
        (allBins pop st).filter (fun b => decide (0 < b.y)) := rfl
    rw [hfil]
    exact le_trans (filter_sum_y_le _ _ hnn) (le_of_eq hA)
  · intro b hb
    simp only [buildHistogram, List.mem_filter, decide_eq_true_eq] at hb
    obtain ⟨hmem, hpos⟩ := hb
    refine ⟨hpos, ?_⟩
    obtain ⟨i, hilt, hy⟩ := mem_allBins hmem
    have hle : binCounts pop st.min ((st.max - st.min) / 40) i ≤ pop.length := by
      rw [← hsum]
      exact le_sumRange hilt
    have hleQ : (binCounts pop st.min ((st.max - st.min) / 40) i : ℚ) ≤
        (pop.length : ℚ) := by exact_mod_cast hle
    have hdiv : (binCounts pop st.min ((st.max - st.min) / 40) i : ℚ) /
        pop.length ≤ 1 := (div_le_one hNQ).mpr hleQ
    rw [hy]
    have hb100 := mul_le_mul_of_nonneg_right hdiv
      (by norm_num : (0 : ℚ) ≤ 100)
    simpa using hb100
  · exact List.Pairwise.sublist (List.filter_sublist _)
      (allBins_pairwise_x pop st hsz)

/- Batteries marks the `Rat` arithmetic operations `@[irreducible]`; restore
the default transparency from here on so that the concrete rational
computations in the remaining theorems can be discharged by `decide`/`rfl`.
(The symbolic proof above is kept before this point, where the operations
stay opaque.) -/
attribute [local semireducible] Rat.add Rat.mul Rat.inv Rat.sub Rat.ofScientific


/-- C1: for every recognized scenario key, `generatePopulation` returns a
population of exactly 10,000 samples, and every sample in it satisfies
`value >= 50.0` and `0.5 <= retention <= 0.95`. -/
theorem c1_population_size_and_bounds (k : String) (p : ScenarioParams)
    (z : ℕ → ℚ) (hk : params? k = some p) :
    generatePopulation k z = .ok (popOf p z) ∧
    (popOf p z).length = 10000 ∧
    ∀ s ∈ popOf p z, 50 ≤ s.npv ∧ (0.5 : ℚ) ≤ s.ms ∧ s.ms ≤ 0.95 := by
  refine ⟨?_, popOf_length p z, ?_⟩
  · unfold generatePopulation
    rw [hk]
  · intro s hs
    exact ⟨mem_popOf_npv hs, (mem_popOf_ms hs).1, (mem_popOf_ms hs).2⟩

/-- C1 witness: the `base` scenario at the all-zero variate stream. -/
theorem c1_witness :
    params? "base" = some ⟨89.4, 11.2, 0.749⟩ ∧
    (generatePopulation "base" (fun _ => 0) =
        .ok (popOf ⟨89.4, 11.2, 0.749⟩ (fun _ => 0)) ∧
      (popOf ⟨89.4, 11.2, 0.749⟩ (fun _ => 0)).length = 10000 ∧
      ∀ s ∈ popOf ⟨89.4, 11.2, 0.749⟩ (fun _ => 0),
        50 ≤ s.npv ∧ (0.5 : ℚ) ≤ s.ms ∧ s.ms ≤ 0.95) :=
  ⟨rfl,
    c1_population_size_and_bounds "base" ⟨89.4, 11.2, 0.749⟩ (fun _ => 0) rfl⟩

/-- C2 (code bug evidence): on the stream whose first draw is `0` — a legal
`Math.random()` output — the argument passed to `Math.log` at iteration 0 is
exactly `0` (no redraw happens), and the resulting Box–Muller `z` is not a
finite number. -/
theorem c2_box_muller_zero_draw :
    logArg (fun _ => 0) 0 = 0 ∧ zFinite (logArg (fun _ => 0) 0) = false := by
  exact ⟨rfl, rfl⟩

/-- C3: for every scenario-selector value outside
`{all, conservative, base, optimistic}`, both `generatePopulation` and
`projectTrajectory` fail with `UnknownScenario`, producing no samples or
points and falling back to no default parameter set. -/
theorem c3_unknown_scenario (k : String)
    (hk : k ∉ ["all", "conservative", "base", "optimistic"])
    (z : ℕ → ℚ) (st : Stats) :
    generatePopulation k z = .error .UnknownScenario ∧
    projectTrajectory k st = .error .UnknownScenario := by
  simp only [List.mem_cons, List.not_mem_nil, or_false, not_or] at hk
  obtain ⟨h1, h2, h3, h4⟩ := hk
  constructor
  · unfold generatePopulation params?
    simp [h1, h2, h3, h4]
  · unfold projectTrajectory factors?
    simp [h1, h2, h3, h4]

/-- C3 witness: the key `"extreme"`. -/
theorem c3_witness :
    ("extreme" ∉ ["all", "conservative", "base", "optimistic"]) ∧
    generatePopulation "extreme" (fun _ => 0) = .error .UnknownScenario ∧
    projectTrajectory "extreme" ⟨0, 0, 0, 0, 0, 0, 0, 0, 0, 0, 0⟩ =
      .error .UnknownScenario :=
  ⟨by decide,
    (c3_unknown_scenario "extreme" (by decide) (fun _ => 0)
      ⟨0, 0, 0, 0, 0, 0, 0, 0, 0, 0, 0⟩).1,
    (c3_unknown_scenario "extreme" (by decide) (fun _ => 0)
      ⟨0, 0, 0, 0, 0, 0, 0, 0, 0, 0, 0⟩).2⟩

/-- C7: `classifyScatter` maps each of the first 800 samples through
`riskOf` of its retention; retention exactly `0.78` classifies Medium (not
Low), exactly `0.70` classifies High (not Medium); in general
`retention > 0.78 → Low`, `0.70 < retention <= 0.78 → Medium`,
`retention <= 0.70 → High`. -/
theorem c7_risk_boundaries :
    (∀ pop : List Sample, classifyScatter pop =
      (pop.take 800).map
        (fun s => ⟨round1 (s.ms * 100), round1 s.npv, riskOf s.ms⟩)) ∧
    riskOf 0.78 = Risk.med ∧ riskOf 0.7 = Risk.high ∧
    ∀ r : ℚ, (0.78 < r → riskOf r = Risk.low) ∧
      (0.7 < r → r ≤ 0.78 → riskOf r = Risk.med) ∧
      (r ≤ 0.7 → riskOf r = Risk.high) := by
  refine ⟨fun pop => rfl, by decide, by decide, fun r => ⟨?_, ?_, ?_⟩⟩
  · intro h
    simp [riskOf, h]
  · intro h1 h2
    rw [riskOf, if_neg (not_lt.mpr h2), if_pos h1]
  · intro h
    rw [riskOf, if_neg (not_lt.mpr (h.trans (by norm_num))),
      if_neg (not_lt.mpr h)]

/-- C7 witness: one retention value in each tier region. -/
theorem c7_witness :
    riskOf 1 = Risk.low ∧ riskOf (3 / 4 : ℚ) = Risk.med ∧
    riskOf (1 / 2 : ℚ) = Risk.high :=
  ⟨(c7_risk_boundaries.2.2.2 1).1 (by norm_num),
    (c7_risk_boundaries.2.2.2 (3 / 4)).2.1 (by norm_num) (by norm_num),
    (c7_risk_boundaries.2.2.2 (1 / 2)).2.2 (by norm_num)⟩

/-- C10: the `stats` memo sorts a copy, so the simulations array after the
call is exactly the array before it, and `classifyScatter` invoked
afterwards still sees the first 800 samples in generation order; the sort
itself does reorder (witness population), so the copy is what preserves the
order. -/
theorem c10_stats_does_not_mutate :
    (∀ pop : List Sample,
      (statsMemo pop).2 = pop ∧
      classifyScatter (statsMemo pop).2 =
        (pop.take 800).map
          (fun s => ⟨round1 (s.ms * 100), round1 s.npv, riskOf s.ms⟩) ∧
      (statsMemo pop).1 = computeStatistics pop) ∧
    ∃ pop : List Sample, jsSort pop ≠ pop ∧ (statsMemo pop).2 = pop := by
  refine ⟨fun pop => ⟨rfl, rfl, rfl⟩, ⟨[⟨90, 0.8⟩, ⟨50, 0.7⟩], ?_, rfl⟩⟩
  decide

/-- C4: for every non-empty population and every permutation of it,
`computeStatistics` returns the same statistics record (all fields) on the
permuted population as on the original order. -/
theorem c4_stats_permutation_invariant (p1 p2 : List Sample)
    (hp : p1.Perm p2) (hne : p1 ≠ []) :
    computeStatistics p1 = computeStatistics p2 := by
  have hne2 : p2 ≠ [] := fun h => hne (by rw [h] at hp; exact hp.eq_nil)
  rw [computeStatistics_of_ne_nil hne, computeStatistics_of_ne_nil hne2,
    statsOf_perm_eq hp]

/-- C4 witness: a two-sample population and its swap. -/
theorem c4_witness :
    (([⟨90, 0.8⟩, ⟨50, 0.7⟩] : List Sample).Perm [⟨50, 0.7⟩, ⟨90, 0.8⟩]) ∧
    (([⟨90, 0.8⟩, ⟨50, 0.7⟩] : List Sample) ≠ []) ∧
    computeStatistics [⟨90, 0.8⟩, ⟨50, 0.7⟩] =
      computeStatistics [⟨50, 0.7⟩, ⟨90, 0.8⟩] :=
  ⟨List.Perm.swap (⟨50, 0.7⟩ : Sample) ⟨90, 0.8⟩ [], by simp,
    c4_stats_permutation_invariant _ _
      (List.Perm.swap (⟨50, 0.7⟩ : Sample) ⟨90, 0.8⟩ []) (by simp)⟩

/-- C8: `projectTrajectory` computes
`expected[i] = round1(median * factor[i])`,
`p90[i] = round1(p90 * factor[i] * 1.05)`,
`p10[i] = round1(p10 * factor[i] * 0.95)`; on the fixed input
`median = 89.4`, `p10 = 74.2`, `p90 = 108.7` for scenario `base` with
factors `[0.15, 0.28, 0.42, 0.58, 0.75, 0.88]`, the first point has
`expected = 13.4`, `p90 = 17.1`, `p10 = 10.6`. -/
theorem c8_trajectory_formula :
    (∀ st : Stats, ∀ i : ℕ, i < 6 →
      (trajOf baseFactors st).getD i ⟨"", 0, 0, 0⟩ =
        ⟨toString (2026 + i),
          round1 (st.median * baseFactors.getD i 0),
          round1 (st.p90 * baseFactors.getD i 0 * 1.05),
          round1 (st.p10 * baseFactors.getD i 0 * 0.95)⟩) ∧
    projectTrajectory "base" st8 = .ok (trajOf baseFactors st8) ∧
    (trajOf baseFactors st8).getD 0 ⟨"", 0, 0, 0⟩ = ⟨"2026", 13.4, 17.1, 10.6⟩ := by
  refine ⟨?_, rfl, by decide⟩
  intro st i h
  interval_cases i <;> rfl

/-- C8 witness: the formula instantiated at the fixed stats input and
index 0. -/
theorem c8_witness :
    (trajOf baseFactors st8).getD 0 ⟨"", 0, 0, 0⟩ =
      ⟨toString (2026 + 0),
        round1 (st8.median * baseFactors.getD 0 0),
        round1 (st8.p90 * baseFactors.getD 0 0 * 1.05),
        round1 (st8.p10 * baseFactors.getD 0 0 * 0.95)⟩ :=
  c8_trajectory_formula.1 st8 0 (by norm_num)

/-- C9: for every population produced by the sampler, the positive-NPV
fraction reported by `computeStatistics` is exactly 100: the value floor of
50 makes `value > 0` hold for every sample, so the statistic is constant. -/
theorem c9_positive_always_100 (k : String) (z : ℕ → ℚ)
    (pop : List Sample) (st : Stats)
    (h1 : generatePopulation k z = .ok pop)
    (h2 : computeStatistics pop = .ok st) : st.positive = 100 := by
  unfold generatePopulation at h1
  cases hk : params? k with
  | none =>
    rw [hk] at h1
    exact absurd h1 (by simp)
  | some p =>
    rw [hk] at h1
    simp only [Except.ok.injEq] at h1
    subst h1
    have hne : popOf p z ≠ [] := by
      intro h
      have hlen := congrArg List.length h
      rw [popOf_length] at hlen
      simp at hlen
    rw [computeStatistics_of_ne_nil hne] at h2
    simp only [Except.ok.injEq] at h2
    subst h2
    have hall : (popOf p z).filter (fun s => decide (0 < s.npv)) = popOf p z := by
      apply List.filter_eq_self.mpr
      intro s hs
      simpa using lt_of_lt_of_le (by norm_num) (mem_popOf_npv hs)
    simp only [statsOf]
    rw [hall, popOf_length]
    norm_num

/-- C9 witness: the `base` scenario at the all-zero variate stream. -/
theorem c9_witness :
    computeStatistics (popOf ⟨89.4, 11.2, 0.749⟩ (fun _ => 0)) =
      .ok (statsOf (popOf ⟨89.4, 11.2, 0.749⟩ (fun _ => 0))) ∧
    generatePopulation "base" (fun _ => 0) =
      .ok (popOf ⟨89.4, 11.2, 0.749⟩ (fun _ => 0)) ∧
    (statsOf (popOf ⟨89.4, 11.2, 0.749⟩ (fun _ => 0))).positive = 100 := by
  have hne : popOf ⟨89.4, 11.2, 0.749⟩ (fun _ => 0) ≠ [] := by
    intro h
    have hlen := congrArg List.length h
    rw [popOf_length] at hlen
    simp at hlen
  have hcs := computeStatistics_of_ne_nil hne
  exact ⟨hcs, rfl,
    c9_positive_always_100 "base" (fun _ => 0) _ _ rfl hcs⟩

/-- C5 counterexample: a concrete degenerate population (all values equal,
so `stats.max = stats.min`) on which `buildHistogram` does not fail with any
error — it returns the empty bin list.  There is no `DegenerateRange` failure
path in the code. -/
theorem c5_counterexample :
    computeStatistics [(⟨50, 0.7⟩ : Sample), ⟨50, 0.8⟩] =
      .ok (statsOf [⟨50, 0.7⟩, ⟨50, 0.8⟩]) ∧
    (statsOf [(⟨50, 0.7⟩ : Sample), ⟨50, 0.8⟩]).max =
      (statsOf [(⟨50, 0.7⟩ : Sample), ⟨50, 0.8⟩]).min ∧
    buildHistogram [(⟨50, 0.7⟩ : Sample), ⟨50, 0.8⟩]
      (statsOf [⟨50, 0.7⟩, ⟨50, 0.8⟩]) = [] := by
  refine ⟨computeStatistics_of_ne_nil (by simp), by decide, by decide⟩

/-- C5 (amended): whenever `stats.max = stats.min` for statistics computed
from the population, `buildHistogram` returns the empty histogram rather
than a normal one: the zero bin width makes every sample's bin index `NaN`,
no bin count is incremented, and all 40 zero-count bins are filtered out. -/
theorem c5_degenerate_range_empty (pop : List Sample) (st : Stats)
    (h1 : computeStatistics pop = .ok st) (h2 : st.max = st.min) :
    buildHistogram pop st = [] := by
  have hne : pop ≠ [] := by
    intro h
    rw [h] at h1
    exact absurd h1 (by simp [computeStatistics])
  rw [computeStatistics_of_ne_nil hne] at h1
  simp only [Except.ok.injEq] at h1
  subst h1
  have hsize : ((statsOf pop).max - (statsOf pop).min) / 40 = 0 := by
    rw [h2]
    ring
  have hbi : ∀ s ∈ pop,
      binIndex (statsOf pop).min (((statsOf pop).max - (statsOf pop).min) / 40)
        s.npv = none := by
    intro s hs
    have heq : s.npv = (statsOf pop).min :=
      le_antisymm (h2 ▸ le_statsOf_max hs) (statsOf_min_le hs)
    unfold binIndex
    rw [if_pos hsize, if_neg]
    rw [heq]
    simp
  have hcnt : binCounts pop (statsOf pop).min
      (((statsOf pop).max - (statsOf pop).min) / 40) = (fun _ => 0) :=
    binCounts_none_aux _ _ pop (fun _ => 0) hbi
  simp only [buildHistogram, allBins, hcnt]
  rw [List.filter_eq_nil_iff]
  intro b hb
  simp only [List.mem_map, List.mem_range] at hb
  obtain ⟨i, _, rfl⟩ := hb
  simp

/-- C5 witness: a single-sample population. -/
theorem c5_witness :
    computeStatistics [(⟨50, 0.7⟩ : Sample)] = .ok (statsOf [⟨50, 0.7⟩]) ∧
    (statsOf [(⟨50, 0.7⟩ : Sample)]).max = (statsOf [(⟨50, 0.7⟩ : Sample)]).min ∧
    buildHistogram [(⟨50, 0.7⟩ : Sample)] (statsOf [⟨50, 0.7⟩]) = [] :=
  ⟨computeStatistics_of_ne_nil (by simp), by decide,
    c5_degenerate_range_empty _ _ (computeStatistics_of_ne_nil (by simp))
      (by decide)⟩

/-- C6 witness: a two-sample population with distinct values. -/
theorem c6_witness :
    computeStatistics [(⟨50, 0.7⟩ : Sample), ⟨90, 0.8⟩] =
      .ok (statsOf [⟨50, 0.7⟩, ⟨90, 0.8⟩]) ∧
    (statsOf [(⟨50, 0.7⟩ : Sample), ⟨90, 0.8⟩]).min <
      (statsOf [(⟨50, 0.7⟩ : Sample), ⟨90, 0.8⟩]).max ∧
    ((allBins [(⟨50, 0.7⟩ : Sample), ⟨90, 0.8⟩]
        (statsOf [⟨50, 0.7⟩, ⟨90, 0.8⟩])).map Bin.y).sum = 100 :=
  ⟨computeStatistics_of_ne_nil (by simp), by decide,
    (c6_histogram_probabilities _ _ (computeStatistics_of_ne_nil (by simp))
      (by decide)).1⟩

end NvidiaDash
